import Mathlib

/-!
Verification of the export pipeline of the claude-to-notion-exporter
repository. The definitions below are a shallow embedding of the
background worker (src/unnamed/part_001, with the earlier worker
src/unnamed/part_003): JS strings are modelled as `List Char`, the
network and storage effects as explicit oracles and state passing.
-/

namespace ClaudeExport

/-- Whitespace as removed by the JS `String.prototype.trim` on the
character set this program handles (space, tab, newline, carriage return). -/
def isWS (c : Char) : Bool := c = ' ' || c = '\t' || c = '\n' || c = '\r'

/-- Left half of JS `trim`: drop leading whitespace. -/
def trimLeft (l : List Char) : List Char := l.dropWhile isWS

/-- Right half of JS `trim`: drop trailing whitespace. -/
def trimRight (l : List Char) : List Char := (l.reverse.dropWhile isWS).reverse

/-- JS `String.prototype.trim`: drop whitespace at both ends. -/
def trim (l : List Char) : List Char := trimLeft (trimRight l)

/-- `startsWith l pat`: `pat` occurs at the head of `l`, fully contained. -/
def startsWith : List Char → List Char → Bool
  | _, [] => true
  | [], _ :: _ => false
  | c :: l, p :: ps => decide (c = p) && startsWith l ps

/-- Forward scan used to realise JS `String.prototype.lastIndexOf(pat, pos)`:
walk the whole string keeping the rightmost occurrence index that is `≤ pos`. -/
def lastIndexGo (pat : List Char) (pos : Nat) : List Char → Nat → Option Nat → Option Nat
  | [], _, best => best
  | c :: rest, i, best =>
    lastIndexGo pat pos rest (i + 1)
      (if decide (i ≤ pos) && startsWith (c :: rest) pat then some i else best)

/-- JS `l.lastIndexOf(pat, pos)`: the largest index `k ≤ pos` at which `pat`
occurs in `l` (ECMA-262 semantics, full containment), `none` for -1. -/
def lastIndexOf (l pat : List Char) (pos : Nat) : Option Nat :=
  lastIndexGo pat pos l 0 none

/-- The sentence separator searched for by chunkText. -/
def sentencePat : List Char := ['.', ' ']

/-- The paragraph separator searched for by chunkText. -/
def paragraphPat : List Char := ['\n', '\n']

/-- The JS comparison `idx > maxLength * 0.5` where `idx` is a lastIndexOf
result (-1 encoded as `none`); for integers `k > m / 2` iff `m < 2 * k`. -/
def overHalf (o : Option Nat) (m : Nat) : Bool :=
  match o with
  | some k => decide (m < 2 * k)
  | none => false

/-- Break-point selection of `chunkText` (src/unnamed/part_001 lines 750-758). -/
def breakPointFor (remaining : List Char) (maxLength : Nat) : Nat :=
  let sentenceBreak := lastIndexOf remaining sentencePat maxLength
  let paragraphBreak := lastIndexOf remaining paragraphPat maxLength
  if overHalf paragraphBreak maxLength then paragraphBreak.getD 0 + 2
  else if overHalf sentenceBreak maxLength then sentenceBreak.getD 0 + 2
  else maxLength

/-- The while loop of `chunkText`; `fuel` bounds the number of iterations
(each iteration consumes at least one character whenever `maxLength ≥ 1`,
so `fuel = text.length` is always enough there). -/
def chunkLoop (maxLength : Nat) : Nat → List Char → List (List Char)
  | 0, _ => []
  | fuel + 1, remaining =>
    if remaining.length = 0 then []
    else if remaining.length ≤ maxLength then [remaining]
    else
      let bp := breakPointFor remaining maxLength
      trim (remaining.take bp) :: chunkLoop maxLength fuel (trim (remaining.drop bp))

/-- `chunkText` of the current background worker
(src/unnamed/part_001 lines 736-765). -/
def chunkText (text : List Char) (maxLength : Nat) : List (List Char) :=
  if text.length ≤ maxLength then [text] else chunkLoop maxLength text.length text

/-- Break-point selection of the earlier worker `chunkText`
(src/unnamed/part_003 lines 448-456). -/
def breakPointForPrev (remaining : List Char) (maxLength : Nat) : Nat :=
  let sentenceBreak := lastIndexOf remaining sentencePat maxLength
  let paragraphBreak := lastIndexOf remaining paragraphPat maxLength
  if overHalf paragraphBreak maxLength then paragraphBreak.getD 0 + 2
  else if overHalf sentenceBreak maxLength then sentenceBreak.getD 0 + 2
  else maxLength

/-- The while loop of the earlier worker `chunkText`. -/
def chunkLoopPrev (maxLength : Nat) : Nat → List Char → List (List Char)
  | 0, _ => []
  | fuel + 1, remaining =>
    if remaining.length = 0 then []
    else if remaining.length ≤ maxLength then [remaining]
    else
      let bp := breakPointForPrev remaining maxLength
      trim (remaining.take bp) :: chunkLoopPrev maxLength fuel (trim (remaining.drop bp))

/-- `chunkText` of the earlier background worker
(src/unnamed/part_003 lines 434-463). -/
def chunkTextPrev (text : List Char) (maxLength : Nat) : List (List Char) :=
  if text.length ≤ maxLength then [text] else chunkLoopPrev maxLength text.length text

/-! ## Retry with exponential backoff (src/unnamed/part_001 lines 6-32) -/

/-- JS `String.prototype.includes`: substring containment
(the empty string is contained in every string). -/
def strIncludes : List Char → List Char → Bool
  | [], sub => sub.isEmpty
  | c :: rest, sub => startsWith (c :: rest) sub || strIncludes rest sub

/-- The retryability test of `retryWithBackoff` (lines 16-18): the message
contains 429, or contains the words rate limit, or contains both a 5 and
the word Error. -/
def shouldRetry (msg : List Char) : Bool :=
  strIncludes msg ("429".data) || strIncludes msg ("rate limit".data) ||
    (strIncludes msg ("5".data) && strIncludes msg ("Error".data))

/-- Observable outcome of one `retryWithBackoff` run: the value or final
error, the sleeps performed (in ms, in order), and the attempt indices at
which `fn` was invoked. -/
structure RetryOut (α : Type) where
  result : Except (List Char) α
  delays : List Nat
  attempts : List Nat

/-- The for loop of `retryWithBackoff`: `remaining` is the number of loop
iterations left (`maxRetries - attempt`); `remaining = 0` is the fall
through after the loop, which rethrows `lastError` (reachable only with
`maxRetries = 0`, where `lastError` is still undefined). -/
def retryLoop (fn : Nat → Except (List Char) α) (initialDelay : Nat) :
    Nat → Nat → RetryOut α
  | _, 0 => ⟨.error ("undefined".data), [], []⟩
  | attempt, remaining + 1 =>
    match fn attempt with
    | .ok v => ⟨.ok v, [], [attempt]⟩
    | .error e =>
      if !shouldRetry e || remaining == 0 then ⟨.error e, [], [attempt]⟩
      else
        let rest := retryLoop fn initialDelay (attempt + 1) remaining
        ⟨rest.result, initialDelay * 2 ^ attempt :: rest.delays, attempt :: rest.attempts⟩

/-- `retryWithBackoff(fn, maxRetries, initialDelay)` of
src/unnamed/part_001 lines 6-32. -/
def retryWithBackoff (fn : Nat → Except (List Char) α) (maxRetries initialDelay : Nat) :
    RetryOut α :=
  retryLoop fn initialDelay 0 maxRetries

/-! ## Summarizer (src/unnamed/part_001 lines 89-241) -/

/-- One conversation turn as extracted from the page. -/
structure Turn where
  turnNumber : Nat
  user : List Char
  assistant : List Char
deriving DecidableEq

/-- The per-turn summary produced by `handleSummarization`. -/
structure TurnSummary where
  turnNumber : Nat
  oneLine : List Char
  paragraph : List Char
  sourceUser : List Char
  sourceAssistant : List Char
deriving DecidableEq

/-- Outcome of one summarization HTTP request, as the code observes it:
either a 2xx response with the text of `data.content[0].text`, or a
non-ok response with a status code and the extracted error message. -/
inductive ApiOutcome where
  | success (content : List Char)
  | httpError (status : Nat) (message : List Char)
deriving DecidableEq

/-- Environment of `handleSummarization`: the HTTP fetch per model id, and
the `JSON.parse` builtin (returning the oneLine/paragraph fields when the
matched payload parses, `none` when `JSON.parse` throws). -/
structure SummEnv where
  api : List Char → ApiOutcome
  jsonParse : List Char → Option (List Char × List Char)

/-- Log events of the model fallback loop: a 404 skip (model unavailable,
line 180) or a caught per-model failure (line 231). -/
inductive SumEvent where
  | modelSkipped (model : List Char)
  | modelFailed (model : List Char)
deriving DecidableEq

def model1 : List Char := "claude-3-5-sonnet-20241022".data
def model2 : List Char := "claude-3-5-sonnet-20240620".data
def model3 : List Char := "claude-3-opus-20240229".data
def model4 : List Char := "claude-3-sonnet-20240229".data
def model5 : List Char := "claude-3-haiku-20240307".data

/-- The ordered candidate model list (lines 113-119). -/
def modelsToTry : List (List Char) := [model1, model2, model3, model4, model5]

def lbrace : Char := Char.ofNat 123
def rbrace : Char := Char.ofNat 125

/-- Index of the last closing brace of `l`. -/
def lastBraceIdx (l : List Char) : Option Nat :=
  (l.reverse.findIdx? (fun c => c == rbrace)).map (fun k => l.length - 1 - k)

/-- The greedy regex match of line 205: from the first opening brace to the
last closing brace, provided a closing brace follows an opening one. -/
def jsonMatch (l : List Char) : Option (List Char) :=
  match l.findIdx? (fun c => c == lbrace), lastBraceIdx l with
  | some i, some j => if i < j then some ((l.take (j + 1)).drop i) else none
  | _, _ => none

/-- Sentence-ending punctuation of the fallback split regex (line 214). -/
def isPunct (c : Char) : Bool := c = '.' || c = '!' || c = '?'

/-- JS `content.split(re)` where the regex is one-or-more punctuation
characters: each maximal punctuation run separates two fragments. -/
def splitPunct : List Char → List Char → List (List Char)
  | [], acc => [acc.reverse]
  | c :: rest, acc =>
    if isPunct c then acc.reverse :: splitPunct (rest.dropWhile isPunct) []
    else splitPunct rest (c :: acc)
termination_by l _ => l.length
decreasing_by
  · have h := (List.dropWhile_sublist (p := isPunct) (l := rest)).length_le
    simp only [List.length_cons]
    omega
  · simp

/-- The fallback sentence list: split on punctuation, keep fragments whose
trim is non-empty (JS truthiness of the trimmed string). -/
def sentencesOf (content : List Char) : List (List Char) :=
  (splitPunct content []).filter (fun s => !(trim s).isEmpty)

/-- Fallback summaries (lines 213-218): first sentence (or the first 150
characters) as the one-liner, the trimmed content as the paragraph. -/
def fallbackSummaries (content : List Char) : List Char × List Char :=
  match (sentencesOf content).head? with
  | some s => (trim s, trim content)
  | none => (content.take 150, trim content)

/-- Response parsing (lines 201-219): extract a JSON-shaped payload and
hand it to `JSON.parse`; any failure degrades to the fallback, never throws. -/
def parseSummaries (env : SummEnv) (content : List Char) : List Char × List Char :=
  match jsonMatch content with
  | some j =>
    match env.jsonParse j with
    | some r => r
    | none => fallbackSummaries content
  | none => fallbackSummaries content

/-- The TurnSummary returned on a successful response (lines 221-227). -/
def buildSummary (env : SummEnv) (turn : Turn) (content : List Char) : TurnSummary :=
  { turnNumber := turn.turnNumber
    oneLine := (parseSummaries env content).1
    paragraph := (parseSummaries env content).2
    sourceUser := turn.user
    sourceAssistant := turn.assistant }

def modelNotFoundMsg (m : List Char) : List Char := "Model not found: ".data ++ m
def rateLimitMsg (msg : List Char) : List Char := "Rate limit (429): ".data ++ msg
def apiErrorMsg (msg : List Char) : List Char := "API Error: ".data ++ msg
def allModelsFailedMsg : List Char := "All models failed".data

def withSumEvent (ev : SumEvent) (r : Except (List Char) TurnSummary × List SumEvent) :
    Except (List Char) TurnSummary × List SumEvent :=
  (r.1, ev :: r.2)

/-- The model fallback loop (lines 123-239). A 404 moves to the next model
recording a skip; a 429 or any other error is thrown, caught by the
per-model catch, recorded, and the loop also moves on; after the last
candidate the last error (or the all-failed message) is thrown. -/
def tryModels (env : SummEnv) (turn : Turn) :
    List (List Char) → Option (List Char) → Except (List Char) TurnSummary × List SumEvent
  | [], lastError => (.error (lastError.getD allModelsFailedMsg), [])
  | m :: rest, _lastError =>
    match env.api m with
    | .success content => (.ok (buildSummary env turn content), [])
    | .httpError status msg =>
      if status = 404 then
        withSumEvent (.modelSkipped m) (tryModels env turn rest (some (modelNotFoundMsg m)))
      else
        withSumEvent (.modelFailed m)
          (tryModels env turn rest
            (some (if status = 429 then rateLimitMsg msg else apiErrorMsg msg)))

/-- Observable outcome of `handleSummarization`. -/
structure SummRun where
  result : Except (List Char) TurnSummary
  events : List SumEvent
  delays : List Nat

/-- `handleSummarization` (lines 89-241): the whole model loop is one
attempt of the backoff wrapper; each retry re-runs the loop and re-logs
its events. -/
def handleSummarization (env : SummEnv) (turn : Turn) : SummRun :=
  let pass := tryModels env turn modelsToTry none
  let r := retryWithBackoff (fun _ => pass.1) 3 1000
  ⟨r.result, (r.attempts.map (fun _ => pass.2)).flatten, r.delays⟩

/-! ## Export orchestrator (src/unnamed/part_001 lines 243-370) -/

/-- The `exportProgress` record kept in chrome.storage.local. -/
structure Progress where
  status : List Char
  current : Nat
  total : Nat
  message : List Char
deriving DecidableEq

/-- One entry of the stored `exportHistory` map (lines 308-315). -/
structure ExportRecordJs where
  conversationUrl : List Char
  conversationTitle : List Char
  exportedAt : List Char
  turnCount : Nat
  notionPageId : List Char
  parentBlockId : List Char
deriving DecidableEq

/-- The fields of `existingExportData` that `handleFullExport` reads. -/
structure ExistingExportData where
  turnCount : Nat
  parentBlockId : List Char
deriving DecidableEq

/-- The `exportData` request payload of `handleFullExport`. -/
structure ExportData where
  turns : List Turn
  chatTitle : List Char
  conversationUrl : List Char
  apiKey : List Char
  notionToken : List Char
  pageId : List Char
  exportMode : List Char
  existingExportData : Option ExistingExportData
deriving DecidableEq

/-- The chrome.storage.local slice the orchestrator touches. -/
structure Store where
  exportProgress : Option Progress
  exportHistory : List (List Char × ExportRecordJs)
deriving DecidableEq

/-- Externally visible calls made by `handleFullExport`, in order. -/
inductive OrchEvent where
  | summarizeCall (turn : Turn)
  | createCall (summaries : List TurnSummary) (pageId : List Char)
  | appendCall (summaries : List TurnSummary) (parentBlockId : List Char)
  | notify (title message : List Char)
deriving DecidableEq

/-- Environment of `handleFullExport`: the outcome of `handleSummarization`
per turn, the outcome of `createNotionToggles` (its returned master block
id or the thrown message), the outcome of `appendNotionToggles`, and the
current timestamp. -/
structure OrchEnv where
  summarize : Turn → Except (List Char) TurnSummary
  createResult : Except (List Char) (List Char)
  appendResult : Except (List Char) Unit
  nowIso : List Char

/-- Observable outcome of one `handleFullExport` run. -/
structure RunResult where
  result : Except (List Char) Unit
  store : Store
  events : List OrchEvent

/-- Result of the summarization for loop. -/
structure LoopOut where
  summaries : List TurnSummary
  store : Store
  events : List OrchEvent

def updateModeStr : List Char := "update".data
def statusStarting : List Char := "starting".data
def statusSummarizing : List Char := "summarizing".data
def statusCreating : List Char := "creating".data
def statusError : List Char := "error".data

def noNewTurnsMsg : List Char := "No new turns to export".data
def startingMsg : List Char := "Starting export...".data
def creatingMsg : List Char := "Creating Notion blocks...".data
def exportFailedTitle : List Char := "Export Failed".data
def exportCompleteTitle : List Char := "Export Complete".data
def updateCompleteTitle : List Char := "Update Complete".data

/-- The sentinel one-liner substituted on summarization failure (line 280). -/
def sentinelOneLine (n : Nat) : List Char :=
  "Turn ".data ++ (Nat.repr n).data ++ " (summary failed)".data

def sentinelParagraph : List Char := "Summary generation failed for this turn.".data

/-- The sentinel TurnSummary pushed when `handleSummarization` throws
(lines 278-284): the one-line slot holds the sentinel text and the source
texts of the turn are kept. -/
def sentinelSummary (turn : Turn) : TurnSummary :=
  { turnNumber := turn.turnNumber
    oneLine := sentinelOneLine turn.turnNumber
    paragraph := sentinelParagraph
    sourceUser := turn.user
    sourceAssistant := turn.assistant }

/-- The per-turn progress message (line 271). -/
def processingMsg (k total : Nat) : List Char :=
  "Processing turn ".data ++ (Nat.repr k).data ++ " of ".data
    ++ (Nat.repr total).data ++ "...".data

/-- The completion notification message (lines 320-322). -/
def successMsg (isUpd : Bool) (newCount totalCount : Nat) : List Char :=
  if isUpd then
    "Successfully added ".data ++ (Nat.repr newCount).data ++ " new turns to Notion!".data
  else
    "Successfully exported ".data ++ (Nat.repr totalCount).data ++ " turns to Notion!".data

/-- `updateProgress` (lines 344-348). -/
def setProgress (st : Store) (status : List Char) (current total : Nat)
    (message : List Char) : Store :=
  { st with exportProgress := some { status, current, total, message } }

/-- `storeExportHistory` (lines 350-361): JS object key assignment on the
stored history map. -/
def putHistory : List (List Char × ExportRecordJs) → List Char → ExportRecordJs →
    List (List Char × ExportRecordJs)
  | [], url, r => [(url, r)]
  | (k, v) :: rest, url, r =>
    if k = url then (url, r) :: rest else (k, v) :: putHistory rest url r

/-- `getExportHistory` lookup (lines 363-370). -/
def getHistoryEntry : List (List Char × ExportRecordJs) → List Char → Option ExportRecordJs
  | [], _ => none
  | (k, v) :: rest, url => if k = url then some v else getHistoryEntry rest url

/-- The summarization for loop (lines 266-291): one progress write, one
`handleSummarization` call (degrading to the sentinel on failure), per
turn of the slice, in order. -/
def runTurnLoop (summ : Turn → Except (List Char) TurnSummary)
    (totalTurns startIndex sliceLen : Nat) : List Turn → Nat → Store → LoopOut
  | [], _, st => ⟨[], st, []⟩
  | turn :: rest, i, st =>
    let st1 := setProgress st statusSummarizing i sliceLen
      (processingMsg (startIndex + i + 1) totalTurns)
    let s := match summ turn with
      | .ok s => s
      | .error _ => sentinelSummary turn
    let lp := runTurnLoop summ totalTurns startIndex sliceLen rest (i + 1) st1
    ⟨s :: lp.summaries, lp.store, .summarizeCall turn :: lp.events⟩

/-- The summaries the loop accumulates, as a pure map over the slice. -/
def processTurns (summ : Turn → Except (List Char) TurnSummary)
    (turns : List Turn) : List TurnSummary :=
  turns.map fun turn =>
    match summ turn with
    | .ok s => s
    | .error _ => sentinelSummary turn

/-- `startIndex` of lines 250-255. -/
def startIndexOf (d : ExportData) : Nat :=
  match d.existingExportData with
  | some r0 => if d.exportMode = updateModeStr then r0.turnCount else 0
  | none => 0

/-- `turnsToProcess` of lines 249-255: the delta slice in update mode with
a stored record, the whole transcript otherwise. -/
def sliceOf (d : ExportData) : List Turn :=
  match d.existingExportData with
  | some r0 => if d.exportMode = updateModeStr then d.turns.drop r0.turnCount else d.turns
  | none => d.turns

/-- The destination of the block write: append into the recorded parent
block in update mode, create a fresh master toggle otherwise (lines 297-305). -/
def appendTargetOf (d : ExportData) : Option (List Char) :=
  match d.existingExportData with
  | some r0 => if d.exportMode = updateModeStr then some r0.parentBlockId else none
  | none => none

/-- The catch block of `handleFullExport` (lines 331-341): progress set to
an error snapshot carrying the message, failure notification, rethrow. -/
def mkErrorResult (st : Store) (evs : List OrchEvent) (msg : List Char) : RunResult :=
  { result := .error msg
    store := setProgress st statusError 0 0 msg
    events := evs ++ [.notify exportFailedTitle msg] }

/-- The success tail of `handleFullExport` (lines 307-329): overwrite the
history record with the full turn count, clear progress, notify. -/
def mkSuccessResult (env : OrchEnv) (d : ExportData) (st : Store) (evs : List OrchEvent)
    (parentBlockId : List Char) (isUpd : Bool) (sliceLen : Nat) : RunResult :=
  { result := .ok ()
    store :=
      { exportProgress := none
        exportHistory := putHistory st.exportHistory d.conversationUrl
          { conversationUrl := d.conversationUrl
            conversationTitle := d.chatTitle
            exportedAt := env.nowIso
            turnCount := d.turns.length
            notionPageId := d.pageId
            parentBlockId := parentBlockId } }
    events := evs ++ [.notify (if isUpd then updateCompleteTitle else exportCompleteTitle)
      (successMsg isUpd sliceLen d.turns.length)] }

/-- `handleFullExport` (lines 243-342). -/
def handleFullExport (env : OrchEnv) (d : ExportData) (st : Store) : RunResult :=
  let slice := sliceOf d
  let appendTo := appendTargetOf d
  if appendTo.isSome && slice.isEmpty then
    mkErrorResult st [] noNewTurnsMsg
  else
    let st1 := setProgress st statusStarting 0 slice.length startingMsg
    let lp := runTurnLoop env.summarize d.turns.length (startIndexOf d) slice.length slice 0 st1
    let st3 := setProgress lp.store statusCreating slice.length slice.length creatingMsg
    match appendTo with
    | some pbid =>
      match env.appendResult with
      | .error m => mkErrorResult st3 (lp.events ++ [.appendCall lp.summaries pbid]) m
      | .ok _ =>
        mkSuccessResult env d st3 (lp.events ++ [.appendCall lp.summaries pbid])
          pbid true slice.length
    | none =>
      match env.createResult with
      | .error m => mkErrorResult st3 (lp.events ++ [.createCall lp.summaries d.pageId]) m
      | .ok newId =>
        mkSuccessResult env d st3 (lp.events ++ [.createCall lp.summaries d.pageId])
          newId false slice.length

/-- The turns handed to `handleSummarization` during a run, in order. -/
def summarizeCalls (evs : List OrchEvent) : List Turn :=
  evs.filterMap fun e =>
    match e with
    | .summarizeCall t => some t
    | _ => none

/-- The summary lists handed to the Notion block writers during a run. -/
def writeSummaries (evs : List OrchEvent) : List (List TurnSummary) :=
  evs.filterMap fun e =>
    match e with
    | .createCall s _ => some s
    | .appendCall s _ => some s
    | _ => none

/-! ## Document builder blocks (src/unnamed/part_001 lines 515-564) -/

/-- A Notion paragraph block as built for the Source Text toggle: its
rich text content and whether the bold annotation is set. -/
inductive NotionBlock where
  | para (bold : Bool) (content : List Char)
deriving DecidableEq

/-- Length of the text content of a block. -/
def blockLen : NotionBlock → Nat
  | .para _ c => c.length

/-- One paragraph block per chunk of a source text (lines 533-541, 554-562). -/
def chunkBlocks (text : List Char) (limit : Nat) : List NotionBlock :=
  (chunkText text limit).map (NotionBlock.para false)

/-- The `sourceTextChildren` array (lines 521-564): a bold User label, the
user text chunks, a bold Assistant label, the assistant text chunks. -/
def sourceTextChildren (sourceUser sourceAssistant : List Char) (limit : Nat) :
    List NotionBlock :=
  NotionBlock.para true ("User:".data) :: chunkBlocks sourceUser limit
    ++ NotionBlock.para true ("Assistant:".data) :: chunkBlocks sourceAssistant limit

/-! ## Concrete data used by the witnesses -/

/-- A 4500-character assistant text whose only sentence break starts
exactly at index 2000. -/
def badAssistantText : List Char :=
  List.replicate 2000 'a' ++ '.' :: ' ' :: List.replicate 2498 'a'

def turnW1 : Turn := ⟨1, "hi".data, "hello there".data⟩
def turnW2 : Turn := ⟨2, "second question".data, "second answer".data⟩
def turnW3 : Turn := ⟨3, "third question".data, "third answer".data⟩

def dummySummary (t : Turn) : TurnSummary :=
  ⟨t.turnNumber, "label".data, "paragraph text".data, t.user, t.assistant⟩

def envOkW : OrchEnv :=
  { summarize := fun t => .ok (dummySummary t)
    createResult := .ok ("block-1".data)
    appendResult := .ok ()
    nowIso := "2024-01-01T00:00:00.000Z".data }

def envFailSummW : OrchEnv :=
  { summarize := fun _ => .error ("HTTP 500".data)
    createResult := .ok ("block-1".data)
    appendResult := .ok ()
    nowIso := "2024-01-01T00:00:00.000Z".data }

def envCreateFailW : OrchEnv :=
  { summarize := fun t => .ok (dummySummary t)
    createResult := .error ("Notion API Error: boom".data)
    appendResult := .ok ()
    nowIso := "2024-01-01T00:00:00.000Z".data }

def emptyStore : Store := { exportProgress := none, exportHistory := [] }

def dataFullW : ExportData :=
  { turns := [turnW1]
    chatTitle := "Chat".data
    conversationUrl := "https://claude.ai/chat/abc".data
    apiKey := "key".data
    notionToken := "token".data
    pageId := "page-1".data
    exportMode := "full".data
    existingExportData := none }

def dataUpdateW : ExportData :=
  { turns := [turnW1, turnW2, turnW3]
    chatTitle := "Chat".data
    conversationUrl := "https://claude.ai/chat/abc".data
    apiKey := "key".data
    notionToken := "token".data
    pageId := "page-1".data
    exportMode := updateModeStr
    existingExportData := some ⟨1, "parent-1".data⟩ }

def dataUpdateEmptyW : ExportData :=
  { turns := [turnW1]
    chatTitle := "Chat".data
    conversationUrl := "https://claude.ai/chat/abc".data
    apiKey := "key".data
    notionToken := "token".data
    pageId := "page-1".data
    exportMode := updateModeStr
    existingExportData := some ⟨2, "parent-1".data⟩ }

def summEnvW : SummEnv :=
  { api := fun m =>
      if m = model1 then .httpError 404 ("model not found".data)
      else if m = model2 then .httpError 404 ("model not found".data)
      else .success ("A fine summary of the turn".data)
    jsonParse := fun _ => none }

/-! ## Chunker lemmas -/

theorem startsWith_two {l : List Char} {a b : Char} (h : startsWith l [a, b] = true) :
    ∃ t, l = a :: b :: t := by
  match l with
  | [] => simp [startsWith] at h
  | [c] => simp [startsWith] at h
  | c :: d :: t =>
    simp only [startsWith, Bool.and_eq_true, decide_eq_true_eq] at h
    exact ⟨t, by rw [h.1, h.2.1]⟩

theorem lastIndexGo_sound {pat : List Char} {pos : Nat} (l0 : List Char) :
    ∀ (tail : List Char) (i : Nat) (best : Option Nat),
      tail = l0.drop i →
      (∀ k, best = some k → k ≤ pos ∧ startsWith (l0.drop k) pat = true) →
      ∀ k, lastIndexGo pat pos tail i best = some k →
        k ≤ pos ∧ startsWith (l0.drop k) pat = true := by
  intro tail
  induction tail with
  | nil => intro i best _ hbest k hk; exact hbest k hk
  | cons c rest ih =>
    intro i best htail hbest k hk
    rw [lastIndexGo] at hk
    refine ih (i + 1) _ ?_ ?_ k hk
    · have h1 : (l0.drop i).tail = l0.drop (i + 1) := List.tail_drop l0 i
      rw [← htail] at h1
      simpa using h1
    · intro k' hk'
      split at hk'
      case isTrue hcond =>
        rw [Bool.and_eq_true, decide_eq_true_eq] at hcond
        have hik : i = k' := by injection hk'
        subst hik
        exact ⟨hcond.1, by rw [← htail]; exact hcond.2⟩
      case isFalse => exact hbest k' hk'

theorem lastIndexOf_sound {l pat : List Char} {pos k : Nat}
    (h : lastIndexOf l pat pos = some k) :
    k ≤ pos ∧ startsWith (l.drop k) pat = true := by
  rw [lastIndexOf] at h
  exact lastIndexGo_sound l l 0 none (by simp) (by intro k hk; cases hk) k h

theorem trimLeft_length_le (l : List Char) : (trimLeft l).length ≤ l.length :=
  (List.dropWhile_sublist (p := isWS) (l := l)).length_le

theorem trimRight_length_le (l : List Char) : (trimRight l).length ≤ l.length := by
  simpa [trimRight] using (List.dropWhile_sublist (p := isWS) (l := l.reverse)).length_le

theorem trim_length_le (l : List Char) : (trim l).length ≤ l.length := by
  have h1 := trimLeft_length_le (trimRight l)
  have h2 := trimRight_length_le l
  rw [trim]
  omega

theorem trimRight_append_ws {l : List Char} {c : Char} (h : isWS c = true) :
    trimRight (l ++ [c]) = trimRight l := by
  simp [trimRight, List.reverse_append, List.dropWhile_cons, h]

theorem trim_append_two_ws (l : List Char) {c1 c2 : Char}
    (h1 : isWS c1 = true) (h2 : isWS c2 = true) :
    (trim (l ++ [c1, c2])).length ≤ l.length := by
  have e : l ++ [c1, c2] = (l ++ [c1]) ++ [c2] := by simp
  have hr : trimRight (l ++ [c1, c2]) = trimRight l := by
    rw [e, trimRight_append_ws h2, trimRight_append_ws h1]
  have hl := trimLeft_length_le (trimRight l)
  have h2 := trimRight_length_le l
  rw [trim, hr]
  omega

theorem trim_append_sentence {l : List Char} :
    (trim (l ++ ['.', ' '])).length ≤ l.length + 1 := by
  have e : l ++ ['.', ' '] = (l ++ ['.']) ++ [' '] := by simp
  have hr : trimRight (l ++ ['.', ' ']) = trimRight (l ++ ['.']) := by
    rw [e, trimRight_append_ws (by decide)]
  have hl := trimLeft_length_le (trimRight (l ++ ['.']))
  have h2 := trimRight_length_le (l ++ ['.'])
  rw [trim, hr]
  simp only [List.length_append, List.length_cons, List.length_nil] at h2
  omega

theorem overHalf_true {o : Option Nat} {m : Nat} (h : overHalf o m = true) :
    ∃ k, o = some k ∧ m < 2 * k := by
  cases o with
  | none => simp [overHalf] at h
  | some k => exact ⟨k, rfl, by simpa [overHalf] using h⟩

theorem breakPointFor_pos {r : List Char} {m : Nat} (hm : 1 ≤ m) :
    1 ≤ breakPointFor r m := by
  simp only [breakPointFor]
  split
  · omega
  · split
    · omega
    · exact hm

theorem chunk_head_length_le {r : List Char} {m : Nat} :
    (trim (r.take (breakPointFor r m))).length ≤ m + 1 := by
  by_cases hp : overHalf (lastIndexOf r paragraphPat m) m = true
  · obtain ⟨p, hpe, _⟩ := overHalf_true hp
    obtain ⟨hple, hsw⟩ := lastIndexOf_sound hpe
    simp only [paragraphPat] at hsw
    obtain ⟨t, ht⟩ := startsWith_two hsw
    have hp2 : overHalf (some p) m = true := by rw [← hpe]; exact hp
    have hbp : breakPointFor r m = p + 2 := by
      simp [breakPointFor, hpe, hp2]
    have htake : r.take (p + 2) = r.take p ++ ['\n', '\n'] := by
      rw [List.take_add, ht]; rfl
    rw [hbp, htake]
    have hnl : isWS '\n' = true := by decide
    have h1 := trim_append_two_ws (r.take p) hnl hnl
    have h2 := List.length_take_le p r
    omega
  · by_cases hs : overHalf (lastIndexOf r sentencePat m) m = true
    · obtain ⟨s, hse, _⟩ := overHalf_true hs
      obtain ⟨hsle, hsw⟩ := lastIndexOf_sound hse
      simp only [sentencePat] at hsw
      obtain ⟨t, ht⟩ := startsWith_two hsw
      have hs2 : overHalf (some s) m = true := by rw [← hse]; exact hs
      have hbp : breakPointFor r m = s + 2 := by
        simp [breakPointFor, hp, hse, hs2]
      have htake : r.take (s + 2) = r.take s ++ ['.', ' '] := by
        rw [List.take_add, ht]; rfl
      rw [hbp, htake]
      have h1 := trim_append_sentence (l := r.take s)
      have h2 := List.length_take_le s r
      omega
    · have hbp : breakPointFor r m = m := by
        simp [breakPointFor, hp, hs]
      rw [hbp]
      have h1 := trim_length_le (r.take m)
      have h2 := List.length_take_le m r
      omega

theorem chunkLoop_length_le {m : Nat} (hm : 1 ≤ m) :
    ∀ (fuel : Nat) (r : List Char), r.length ≤ fuel →
      ∀ c ∈ chunkLoop m fuel r, c.length ≤ m + 1 := by
  intro fuel
  induction fuel with
  | zero => intro r hr c hc; simp [chunkLoop] at hc
  | succ fuel ih =>
    intro r hr c hc
    simp only [chunkLoop] at hc
    by_cases h0 : r.length = 0
    · simp [h0] at hc
    · rw [if_neg h0] at hc
      by_cases h1 : r.length ≤ m
      · rw [if_pos h1] at hc
        simp only [List.mem_singleton] at hc
        subst hc
        omega
      · rw [if_neg h1] at hc
        simp only [List.mem_cons] at hc
        rcases hc with rfl | hc
        · exact chunk_head_length_le
        · refine ih _ ?_ c hc
          have hbp := breakPointFor_pos (r := r) hm
          have hdl := trim_length_le (r.drop (breakPointFor r m))
          simp only [List.length_drop] at hdl
          omega

theorem filter_dropWhile_isWS (l : List Char) :
    (l.dropWhile isWS).filter (fun c => !(isWS c)) = l.filter (fun c => !(isWS c)) := by
  induction l with
  | nil => rfl
  | cons c l ih =>
    by_cases h : isWS c = true
    · simp [List.dropWhile_cons, h, List.filter_cons, ih]
    · simp [List.dropWhile_cons, h]

theorem filter_trim (l : List Char) :
    (trim l).filter (fun c => !(isWS c)) = l.filter (fun c => !(isWS c)) := by
  rw [trim, trimLeft, filter_dropWhile_isWS, trimRight, List.filter_reverse,
    filter_dropWhile_isWS, List.filter_reverse, List.reverse_reverse]

theorem chunkLoop_filter {m : Nat} (hm : 1 ≤ m) :
    ∀ (fuel : Nat) (r : List Char), r.length ≤ fuel →
      ((chunkLoop m fuel r).flatten).filter (fun c => !(isWS c))
        = r.filter (fun c => !(isWS c)) := by
  intro fuel
  induction fuel with
  | zero =>
    intro r hr
    have h : r = [] := List.length_eq_zero.mp (Nat.le_zero.mp hr)
    subst h
    simp [chunkLoop]
  | succ fuel ih =>
    intro r hr
    simp only [chunkLoop]
    by_cases h0 : r.length = 0
    · have h : r = [] := List.length_eq_zero.mp h0
      subst h
      simp
    · rw [if_neg h0]
      by_cases h1 : r.length ≤ m
      · rw [if_pos h1]
        simp
      · rw [if_neg h1]
        have hfuel : (trim (r.drop (breakPointFor r m))).length ≤ fuel := by
          have hbp := breakPointFor_pos (r := r) hm
          have hdl := trim_length_le (r.drop (breakPointFor r m))
          simp only [List.length_drop] at hdl
          omega
        rw [List.flatten_cons, List.filter_append, filter_trim,
          ih _ hfuel, filter_trim, ← List.filter_append, List.take_append_drop]

/-! ## Claims C1, C8, C10 -/

/-- Claim C1, counterexample: with maxLength 10, the text consisting of ten
letters, a sentence break and one letter is cut at the sentence break that
starts exactly at index 10, and trimming only removes the trailing space,
leaving a first chunk of 11 characters. -/
theorem claim1_counterexample :
    ¬ (∀ c ∈ chunkText ("aaaaaaaaaa. b".data) 10, c.length ≤ 10) := by
  decide

/-- Claim C1 (amended): for every text and every maxLength ≥ 1, every chunk
returned by chunkText has length at most maxLength + 1 (the bound maxLength
itself can be exceeded by exactly one character, when a sentence break
starts exactly at index maxLength). -/
theorem claim1_amended (t : List Char) (m : Nat) (hm : 1 ≤ m) :
    ∀ c ∈ chunkText t m, c.length ≤ m + 1 := by
  intro c hc
  by_cases h : t.length ≤ m
  · rw [chunkText, if_pos h] at hc
    simp only [List.mem_singleton] at hc
    subst hc
    omega
  · rw [chunkText, if_neg h] at hc
    exact chunkLoop_length_le hm t.length t le_rfl c hc

theorem claim1_witness :
    1 ≤ 10 ∧ ∀ c ∈ chunkText ("aaaaaaaaaa. b".data) 10, c.length ≤ 11 :=
  ⟨by decide, claim1_amended _ 10 (by decide)⟩

/-- Claim C8: for every text and limit ≥ 1, concatenating the chunks of
chunkText preserves the sequence of non-whitespace characters of the
original text; only whitespace (trimmed at chunk boundaries) is dropped. -/
theorem claim8_roundtrip (t : List Char) (m : Nat) (hm : 1 ≤ m) :
    ((chunkText t m).flatten).filter (fun c => !(isWS c))
      = t.filter (fun c => !(isWS c)) := by
  by_cases h : t.length ≤ m
  · rw [chunkText, if_pos h]
    simp
  · rw [chunkText, if_neg h]
    exact chunkLoop_filter hm t.length t le_rfl

theorem claim8_witness :
    1 ≤ 4 ∧ ((chunkText ("ab c. de f".data) 4).flatten).filter (fun c => !(isWS c))
      = ("ab c. de f".data).filter (fun c => !(isWS c)) :=
  ⟨by decide, claim8_roundtrip _ 4 (by decide)⟩

theorem chunkLoopPrev_eq_chunkLoop (m : Nat) :
    ∀ fuel r, chunkLoopPrev m fuel r = chunkLoop m fuel r := by
  intro fuel
  induction fuel with
  | zero => intro r; rfl
  | succ fuel ih =>
    intro r
    simp only [chunkLoop, chunkLoopPrev]
    have h : breakPointForPrev r m = breakPointFor r m := rfl
    rw [h, ih]

/-- Claim C10: the chunking function of the current background worker and
the one of the earlier background worker are extensionally equal. -/
theorem claim10_equiv (t : List Char) (m : Nat) : chunkText t m = chunkTextPrev t m := by
  rw [chunkText, chunkTextPrev, chunkLoopPrev_eq_chunkLoop]

/-! ## Replicate evaluation lemmas for claim C9 -/

theorem startsWith_cons_ne {a p : Char} {l ps : List Char} (h : ¬ a = p) :
    startsWith (a :: l) (p :: ps) = false := by
  simp [startsWith, h]

theorem lastIndexGo_skip_replicate {p : Char} {ps : List Char} {a : Char}
    (h : ¬ a = p) (pos : Nat) :
    ∀ (k : Nat) (rest : List Char) (i : Nat) (best : Option Nat),
      lastIndexGo (p :: ps) pos (List.replicate k a ++ rest) i best
        = lastIndexGo (p :: ps) pos rest (i + k) best := by
  intro k
  induction k with
  | zero => intro rest i best; simp
  | succ k ih =>
    intro rest i best
    rw [List.replicate_succ, List.cons_append, lastIndexGo,
      startsWith_cons_ne h]
    simp only [Bool.and_false, if_neg (by simp : ¬ (false = true))]
    rw [ih rest (i + 1) best]
    have e : i + 1 + k = i + (k + 1) := by omega
    rw [e]

theorem lastIndexOf_replicate_ne {p : Char} {ps : List Char} {a : Char}
    (h : ¬ a = p) (n pos : Nat) :
    lastIndexOf (List.replicate n a) (p :: ps) pos = none := by
  rw [lastIndexOf, ← List.append_nil (List.replicate n a),
    lastIndexGo_skip_replicate h, lastIndexGo]

theorem dropWhile_isWS_replicate {a : Char} (h : isWS a = false) (k : Nat) :
    List.dropWhile isWS (List.replicate k a) = List.replicate k a := by
  cases k with
  | zero => rfl
  | succ k => rw [List.replicate_succ, List.dropWhile_cons_of_neg (by simp [h])]

theorem trim_replicate {a : Char} (h : isWS a = false) (k : Nat) :
    trim (List.replicate k a) = List.replicate k a := by
  rw [trim, trimRight, List.reverse_replicate, dropWhile_isWS_replicate h,
    List.reverse_replicate, trimLeft, dropWhile_isWS_replicate h]

theorem breakPointFor_replicate_a (n m : Nat) :
    breakPointFor (List.replicate n 'a') m = m := by
  rw [breakPointFor]
  rw [show sentencePat = '.' :: [' '] from rfl, show paragraphPat = '\n' :: ['\n'] from rfl]
  rw [lastIndexOf_replicate_ne (by decide) n m, lastIndexOf_replicate_ne (by decide) n m]
  rfl

theorem chunkLoop_replicate_a_step {m n fuel : Nat} (hmn : m < n) :
    chunkLoop m (fuel + 1) (List.replicate n 'a')
      = List.replicate m 'a' :: chunkLoop m fuel (List.replicate (n - m) 'a') := by
  simp only [chunkLoop, List.length_replicate]
  rw [if_neg (by omega), if_neg (by omega), breakPointFor_replicate_a,
    List.take_replicate, List.drop_replicate,
    trim_replicate (by decide), trim_replicate (by decide)]
  have e : min m n = m := by omega
  rw [e]

theorem chunkLoop_replicate_a_last {m n fuel : Nat} (h0 : 0 < n) (hnm : n ≤ m) :
    chunkLoop m (fuel + 1) (List.replicate n 'a') = [List.replicate n 'a'] := by
  simp only [chunkLoop, List.length_replicate]
  rw [if_neg (by omega), if_pos hnm]

theorem chunkText_replicate_4500 :
    chunkText (List.replicate 4500 'a') 2000
      = [List.replicate 2000 'a', List.replicate 2000 'a', List.replicate 500 'a'] := by
  rw [chunkText]
  rw [if_neg (by rw [List.length_replicate]; omega)]
  rw [List.length_replicate]
  rw [show (4500 : Nat) = 4499 + 1 from rfl, chunkLoop_replicate_a_step (by omega)]
  rw [show (4500 : Nat) - 2000 = 2499 + 1 + 1999 + 1 - 1999 - 1 from by omega]
  rw [show (4499 : Nat) = 4498 + 1 from rfl]
  rw [show (2499 : Nat) + 1 + 1999 + 1 - 1999 - 1 = 2500 from by omega]
  rw [chunkLoop_replicate_a_step (by omega)]
  rw [show (2500 : Nat) - 2000 = 500 from by omega]
  rw [show (4498 : Nat) = 4497 + 1 from rfl]
  rw [chunkLoop_replicate_a_last (by omega) (by omega)]

/-! ## The 4500-character counterexample text of claim C9 -/

theorem bad_length : badAssistantText.length = 4500 := by
  rw [badAssistantText]
  simp only [List.length_append, List.length_replicate, List.length_cons]

theorem lastIndexOf_bad_sentence :
    lastIndexOf badAssistantText sentencePat 2000 = some 2000 := by
  rw [lastIndexOf, badAssistantText, show sentencePat = '.' :: [' '] from rfl,
    lastIndexGo_skip_replicate (by decide) 2000]
  simp only [Nat.zero_add]
  rw [lastIndexGo, if_pos (by decide), lastIndexGo, if_neg (by decide)]
  rw [← List.append_nil (List.replicate 2498 'a'),
    lastIndexGo_skip_replicate (by decide) 2000]
  rw [lastIndexGo]

theorem lastIndexOf_bad_paragraph :
    lastIndexOf badAssistantText paragraphPat 2000 = none := by
  rw [lastIndexOf, badAssistantText, show paragraphPat = '\n' :: ['\n'] from rfl,
    lastIndexGo_skip_replicate (by decide) 2000]
  rw [lastIndexGo, if_neg (by decide), lastIndexGo, if_neg (by decide)]
  rw [← List.append_nil (List.replicate 2498 'a'),
    lastIndexGo_skip_replicate (by decide) 2000]
  rw [lastIndexGo]

theorem breakPointFor_bad : breakPointFor badAssistantText 2000 = 2002 := by
  simp only [breakPointFor]
  rw [lastIndexOf_bad_sentence, lastIndexOf_bad_paragraph]
  decide

theorem bad_decomp :
    badAssistantText = (List.replicate 2000 'a' ++ ['.', ' ']) ++ List.replicate 2498 'a' := by
  rw [badAssistantText]
  simp only [List.append_assoc, List.cons_append, List.nil_append]

theorem take_bad_2002 :
    badAssistantText.take 2002 = List.replicate 2000 'a' ++ ['.', ' '] := by
  rw [bad_decomp]
  exact List.take_left' (by
    simp only [List.length_append, List.length_replicate, List.length_cons, List.length_nil])

theorem trimRight_append_not_ws {l : List Char} {c : Char} (h : isWS c = false) :
    trimRight (l ++ [c]) = l ++ [c] := by
  rw [trimRight]
  have e : (l ++ [c]).reverse = c :: l.reverse := by simp
  rw [e, List.dropWhile_cons_of_neg (by simp [h])]
  simp

theorem trimLeft_cons_not_ws {a : Char} {l : List Char} (h : isWS a = false) :
    trimLeft (a :: l) = a :: l := by
  rw [trimLeft, List.dropWhile_cons_of_neg (by simp [h])]

theorem trim_chunk1 :
    trim (List.replicate 2000 'a' ++ ['.', ' ']) = List.replicate 2000 'a' ++ ['.'] := by
  have e : List.replicate 2000 'a' ++ ['.', ' ']
      = (List.replicate 2000 'a' ++ ['.']) ++ [' '] := by
    simp only [List.append_assoc, List.cons_append, List.nil_append]
  rw [trim, e, trimRight_append_ws (by decide), trimRight_append_not_ws (by decide)]
  rw [show (2000 : Nat) = 1999 + 1 from rfl, List.replicate_succ, List.cons_append,
    trimLeft_cons_not_ws (by decide)]

theorem chunkLoop_succ (m fuel : Nat) (r : List Char) :
    chunkLoop m (fuel + 1) r
      = if r.length = 0 then []
        else if r.length ≤ m then [r]
        else trim (r.take (breakPointFor r m))
          :: chunkLoop m fuel (trim (r.drop (breakPointFor r m))) := by
  simp only [chunkLoop]

theorem chunkText_bad :
    chunkText badAssistantText 2000
      = (List.replicate 2000 'a' ++ ['.'])
          :: chunkLoop 2000 4499 (trim (badAssistantText.drop 2002)) := by
  rw [chunkText, if_neg (by rw [bad_length]; omega), bad_length,
    show (4500 : Nat) = 4499 + 1 from rfl, chunkLoop_succ]
  rw [if_neg (by rw [bad_length]; omega), if_neg (by rw [bad_length]; omega),
    breakPointFor_bad, take_bad_2002, trim_chunk1]

/-! ## Claim C9 -/

/-- Claim C9, counterexample: for the 4500-character assistant text whose
only sentence break starts exactly at index 2000, the first assistant-text
block the Document Builder produces holds 2001 characters, exceeding the
2000 limit, so not every block respects the stated bounds. -/
theorem claim9_counterexample :
    badAssistantText.length = 4500 ∧
    ¬ ((chunkBlocks badAssistantText 2000).length = 3 ∧
       ∀ b ∈ chunkBlocks badAssistantText 2000, blockLen b ≤ 2000) := by
  refine ⟨bad_length, ?_⟩
  rintro ⟨-, hall⟩
  have hmem : NotionBlock.para false (List.replicate 2000 'a' ++ ['.'])
      ∈ chunkBlocks badAssistantText 2000 := by
    rw [chunkBlocks, chunkText_bad]
    simp only [List.map_cons, List.mem_cons, true_or]
  have hb := hall _ hmem
  rw [blockLen] at hb
  simp only [List.length_append, List.length_replicate, List.length_cons,
    List.length_nil] at hb
  omega

/-- Claim C9 (amended): for a 4500-character assistant text with no sentence
or paragraph break (4500 identical letters) and block limit 2000, the
Document Builder produces exactly 3 assistant-text blocks of lengths 2000,
2000 and 500; for every 500-character text it produces exactly 1 block. -/
theorem claim9_amended (t : List Char) (h : t.length = 500) :
    (chunkBlocks (List.replicate 4500 'a') 2000).map blockLen = [2000, 2000, 500] ∧
    chunkBlocks t 2000 = [NotionBlock.para false t] := by
  constructor
  · rw [chunkBlocks, chunkText_replicate_4500]
    simp only [List.map_cons, List.map_nil, blockLen, List.length_replicate]
  · rw [chunkBlocks, chunkText, if_pos (by omega)]
    rfl

theorem claim9_witness :
    (List.replicate 500 'b').length = 500 ∧
    chunkBlocks (List.replicate 500 'b') 2000
      = [NotionBlock.para false (List.replicate 500 'b')] :=
  ⟨by rw [List.length_replicate],
    (claim9_amended _ (by rw [List.length_replicate])).2⟩

/-! ## Claim C5 -/

/-- Claim C5: `retryWithBackoff` with 3 attempts retries exactly the
failures its classifier marks retryable, sleeping the base delay before
attempt 2 and twice the base delay before attempt 3, and a non-retryable
failure propagates immediately with no delay and no further attempt
(the delay and attempt traces show every sleep and every invocation). -/
theorem claim5_backoff (α : Type) (fn : Nat → Except (List Char) α) (d : Nat) :
    retryWithBackoff fn 3 d =
      match fn 0 with
      | .ok v => ⟨.ok v, [], [0]⟩
      | .error e0 =>
        if shouldRetry e0 then
          match fn 1 with
          | .ok v => ⟨.ok v, [d], [0, 1]⟩
          | .error e1 =>
            if shouldRetry e1 then
              match fn 2 with
              | .ok v => ⟨.ok v, [d, d * 2], [0, 1, 2]⟩
              | .error e2 => ⟨.error e2, [d, d * 2], [0, 1, 2]⟩
            else ⟨.error e1, [d], [0, 1]⟩
        else ⟨.error e0, [], [0]⟩ := by
  cases h0 : fn 0 with
  | ok v => simp [retryWithBackoff, retryLoop, h0]
  | error e0 =>
    cases hr0 : shouldRetry e0 with
    | false => simp [retryWithBackoff, retryLoop, h0, hr0]
    | true =>
      cases h1 : fn 1 with
      | ok v => simp [retryWithBackoff, retryLoop, h0, hr0, h1]
      | error e1 =>
        cases hr1 : shouldRetry e1 with
        | false => simp [retryWithBackoff, retryLoop, h0, hr0, h1, hr1]
        | true =>
          cases h2 : fn 2 with
          | ok v => simp [retryWithBackoff, retryLoop, h0, hr0, h1, hr1, h2]
          | error e2 => simp [retryWithBackoff, retryLoop, h0, hr0, h1, hr1, h2]

/-! ## Claim C6 -/

theorem tryModels_error_events (env : SummEnv) (turn : Turn) :
    ∀ (models : List (List Char)) (lastE : Option (List Char)) (msg : List Char),
      (tryModels env turn models lastE).1 = .error msg →
      (tryModels env turn models lastE).2.length = models.length := by
  intro models
  induction models with
  | nil => intro lastE msg _; rfl
  | cons m rest ih =>
    intro lastE msg h
    cases ha : env.api m with
    | success content =>
      rw [tryModels, ha] at h
      simp at h
    | httpError status emsg =>
      rw [tryModels, ha] at h
      rw [tryModels, ha]
      simp only [] at h ⊢
      by_cases h404 : status = 404
      · rw [if_pos h404] at h ⊢
        simp only [withSumEvent, List.length_cons] at h ⊢
        rw [ih _ msg h]
      · rw [if_neg h404] at h ⊢
        simp only [withSumEvent, List.length_cons] at h ⊢
        rw [ih _ msg h]

/-- Claim C6: `handleSummarization` fails only after every candidate model
has been tried (whenever the model loop ends in an error, it has recorded
one skip or failure event per candidate); and when the first two candidates
return a 404 and the third succeeds, exactly two skip events are recorded,
no backoff sleep happens, and the returned TurnSummary is built from the
third candidate response. -/
theorem claim6_fallback (env : SummEnv) (turn : Turn) (c m1 m2 : List Char)
    (h1 : env.api model1 = .httpError 404 m1)
    (h2 : env.api model2 = .httpError 404 m2)
    (h3 : env.api model3 = .success c) :
    (handleSummarization env turn).result = .ok (buildSummary env turn c) ∧
    (handleSummarization env turn).events
      = [.modelSkipped model1, .modelSkipped model2] ∧
    (handleSummarization env turn).delays = [] ∧
    (∀ (models : List (List Char)) (lastE : Option (List Char)) (msg : List Char),
      (tryModels env turn models lastE).1 = .error msg →
      (tryModels env turn models lastE).2.length = models.length) := by
  have hpass : tryModels env turn modelsToTry none
      = (.ok (buildSummary env turn c), [.modelSkipped model1, .modelSkipped model2]) := by
    rw [modelsToTry, tryModels, h1]
    simp only [if_true]
    rw [tryModels, h2]
    simp only [if_true]
    rw [tryModels, h3]
    rfl
  refine ⟨?_, ?_, ?_, tryModels_error_events env turn⟩
  · rw [handleSummarization]
    simp only [hpass, retryWithBackoff, retryLoop]
  · rw [handleSummarization]
    simp only [hpass, retryWithBackoff, retryLoop]
    rfl
  · rw [handleSummarization]
    simp only [hpass, retryWithBackoff, retryLoop]

theorem claim6_witness :
    summEnvW.api model1 = ApiOutcome.httpError 404 ("model not found".data) ∧
    summEnvW.api model3 = ApiOutcome.success ("A fine summary of the turn".data) ∧
    (handleSummarization summEnvW turnW1).events
      = [SumEvent.modelSkipped model1, SumEvent.modelSkipped model2] :=
  ⟨rfl, rfl,
    (claim6_fallback summEnvW turnW1 ("A fine summary of the turn".data)
      ("model not found".data) ("model not found".data) rfl rfl rfl).2.1⟩

/-! ## Orchestrator lemmas -/

theorem runTurnLoop_spec (summ : Turn → Except (List Char) TurnSummary)
    (tot si sl : Nat) :
    ∀ (l : List Turn) (i : Nat) (st : Store),
      (runTurnLoop summ tot si sl l i st).summaries = processTurns summ l ∧
      (runTurnLoop summ tot si sl l i st).events = l.map OrchEvent.summarizeCall ∧
      (runTurnLoop summ tot si sl l i st).store.exportHistory = st.exportHistory := by
  intro l
  induction l with
  | nil => intro i st; exact ⟨rfl, rfl, rfl⟩
  | cons turn rest ih =>
    intro i st
    obtain ⟨ih1, ih2, ih3⟩ := ih (i + 1)
      (setProgress st statusSummarizing i sl (processingMsg (si + i + 1) tot))
    refine ⟨?_, ?_, ?_⟩
    · simp only [runTurnLoop, ih1, processTurns, List.map_cons]
    · simp only [runTurnLoop, ih2, List.map_cons]
    · simp only [runTurnLoop]
      rw [ih3]
      rfl

theorem summarizeCalls_map (l : List Turn) :
    summarizeCalls (l.map OrchEvent.summarizeCall) = l := by
  induction l with
  | nil => rfl
  | cons t rest ih => simpa [summarizeCalls, List.filterMap_cons] using ih

theorem writeSummaries_map (l : List Turn) :
    writeSummaries (l.map OrchEvent.summarizeCall) = [] := by
  induction l with
  | nil => rfl
  | cons t rest ih =>
    rw [List.map_cons, writeSummaries, List.filterMap_cons]
    exact ih

theorem summarizeCalls_append (a b : List OrchEvent) :
    summarizeCalls (a ++ b) = summarizeCalls a ++ summarizeCalls b := by
  simp [summarizeCalls, List.filterMap_append]

theorem writeSummaries_append (a b : List OrchEvent) :
    writeSummaries (a ++ b) = writeSummaries a ++ writeSummaries b := by
  simp [writeSummaries, List.filterMap_append]

theorem handleFullExport_empty (env : OrchEnv) (d : ExportData) (st : Store)
    (pbid : List Char) (hap : appendTargetOf d = some pbid)
    (he : (sliceOf d).isEmpty = true) :
    handleFullExport env d st = mkErrorResult st [] noNewTurnsMsg := by
  simp only [handleFullExport, hap, he, Option.isSome_some, Bool.true_and, if_true]

theorem handleFullExport_events_append (env : OrchEnv) (d : ExportData) (st : Store)
    (pbid : List Char) (hap : appendTargetOf d = some pbid)
    (hne : (sliceOf d).isEmpty = false) :
    ∃ nt nm, (handleFullExport env d st).events
      = (sliceOf d).map OrchEvent.summarizeCall
        ++ [OrchEvent.appendCall (processTurns env.summarize (sliceOf d)) pbid,
            OrchEvent.notify nt nm] := by
  obtain ⟨hs1, hs2, -⟩ := runTurnLoop_spec env.summarize d.turns.length (startIndexOf d)
    (sliceOf d).length (sliceOf d) 0
    (setProgress st statusStarting 0 (sliceOf d).length startingMsg)
  simp only [handleFullExport, hap, hne, Option.isSome_some, Bool.true_and,
    Bool.false_eq_true, if_false]
  cases har : env.appendResult with
  | error m =>
    refine ⟨exportFailedTitle, m, ?_⟩
    simp only [mkErrorResult, hs1, hs2]
    simp [List.append_assoc]
  | ok u =>
    refine ⟨updateCompleteTitle, successMsg true (sliceOf d).length d.turns.length, ?_⟩
    simp only [mkSuccessResult, hs1, hs2, if_true]
    simp [List.append_assoc]

theorem handleFullExport_events_create (env : OrchEnv) (d : ExportData) (st : Store)
    (hap : appendTargetOf d = none) :
    ∃ nt nm, (handleFullExport env d st).events
      = (sliceOf d).map OrchEvent.summarizeCall
        ++ [OrchEvent.createCall (processTurns env.summarize (sliceOf d)) d.pageId,
            OrchEvent.notify nt nm] := by
  obtain ⟨hs1, hs2, -⟩ := runTurnLoop_spec env.summarize d.turns.length (startIndexOf d)
    (sliceOf d).length (sliceOf d) 0
    (setProgress st statusStarting 0 (sliceOf d).length startingMsg)
  simp only [handleFullExport, hap, Option.isSome_none, Bool.false_and,
    Bool.false_eq_true, if_false]
  cases hcr : env.createResult with
  | error m =>
    refine ⟨exportFailedTitle, m, ?_⟩
    simp only [mkErrorResult, hs1, hs2]
    simp [List.append_assoc]
  | ok newId =>
    refine ⟨exportCompleteTitle, successMsg false (sliceOf d).length d.turns.length, ?_⟩
    simp only [mkSuccessResult, hs1, hs2, Bool.false_eq_true, if_false]
    simp [List.append_assoc]

theorem handleFullExport_result_ok (env : OrchEnv) (d : ExportData) (st : Store)
    (bid : List Char) (hc : env.createResult = .ok bid) (ha : env.appendResult = .ok ())
    (hne : (sliceOf d).isEmpty = false) :
    (handleFullExport env d st).result = .ok () := by
  simp only [handleFullExport, hne, Bool.and_false, Bool.false_eq_true, if_false]
  cases hap : appendTargetOf d with
  | some pbid => rw [ha]; rfl
  | none => rw [hc]; rfl

/-! ## Claim C2 -/

/-- Claim C2: in update mode with a stored record of turnCount k and a
transcript of n ≥ k turns, the run hands exactly the turns k+1..n (the
drop of the first k, that is n−k turns) to the summarizer, and every
summary list written to the destination covers exactly those new turns —
turns 1..k are neither re-summarized nor re-written. -/
theorem claim2_delta (env : OrchEnv) (d : ExportData) (st : Store)
    (r0 : ExistingExportData)
    (hmode : d.exportMode = updateModeStr)
    (hex : d.existingExportData = some r0)
    (hkn : r0.turnCount ≤ d.turns.length) :
    summarizeCalls (handleFullExport env d st).events = d.turns.drop r0.turnCount ∧
    (summarizeCalls (handleFullExport env d st).events).length
      = d.turns.length - r0.turnCount ∧
    ∀ s ∈ writeSummaries (handleFullExport env d st).events,
      s = processTurns env.summarize (d.turns.drop r0.turnCount) := by
  have hslice : sliceOf d = d.turns.drop r0.turnCount := by
    simp only [sliceOf, hex, hmode, if_true]
  have hap : appendTargetOf d = some r0.parentBlockId := by
    simp only [appendTargetOf, hex, hmode, if_true]
  by_cases he : (sliceOf d).isEmpty = true
  · have hnil : d.turns.drop r0.turnCount = [] := by
      rw [← hslice]; exact List.isEmpty_iff.mp he
    have hlen : d.turns.length ≤ r0.turnCount := List.drop_eq_nil_iff.mp hnil
    rw [handleFullExport_empty env d st r0.parentBlockId hap he]
    refine ⟨?_, ?_, ?_⟩
    · rw [hnil]; rfl
    · simp only [mkErrorResult]
      have : summarizeCalls [OrchEvent.notify exportFailedTitle noNewTurnsMsg] = [] := rfl
      simp only [List.nil_append, this, List.length_nil]
      omega
    · intro s hs
      simp only [mkErrorResult, List.nil_append] at hs
      exact absurd hs (by simp [writeSummaries, List.filterMap_cons])
  · have hne : (sliceOf d).isEmpty = false := by
      cases h : (sliceOf d).isEmpty
      · rfl
      · exact absurd h he
    obtain ⟨nt, nm, hev⟩ := handleFullExport_events_append env d st r0.parentBlockId hap hne
    rw [hev, hslice]
    refine ⟨?_, ?_, ?_⟩
    · rw [summarizeCalls_append, summarizeCalls_map]
      have : summarizeCalls
          [OrchEvent.appendCall (processTurns env.summarize (d.turns.drop r0.turnCount))
            r0.parentBlockId, OrchEvent.notify nt nm] = [] := rfl
      rw [this, List.append_nil]
    · rw [summarizeCalls_append, summarizeCalls_map]
      have : summarizeCalls
          [OrchEvent.appendCall (processTurns env.summarize (d.turns.drop r0.turnCount))
            r0.parentBlockId, OrchEvent.notify nt nm] = [] := rfl
      rw [this, List.append_nil, List.length_drop]
    · intro s hs
      rw [writeSummaries_append, writeSummaries_map, List.nil_append] at hs
      have : writeSummaries
          [OrchEvent.appendCall (processTurns env.summarize (d.turns.drop r0.turnCount))
            r0.parentBlockId, OrchEvent.notify nt nm]
          = [processTurns env.summarize (d.turns.drop r0.turnCount)] := rfl
      rw [this] at hs
      simpa using hs

theorem claim2_witness :
    dataUpdateW.exportMode = updateModeStr ∧
    dataUpdateW.existingExportData = some ⟨1, "parent-1".data⟩ ∧
    summarizeCalls (handleFullExport envOkW dataUpdateW emptyStore).events
      = dataUpdateW.turns.drop 1 :=
  ⟨rfl, rfl,
    (claim2_delta envOkW dataUpdateW emptyStore ⟨1, "parent-1".data⟩ rfl rfl
      (by decide)).1⟩

/-! ## Claim C3 -/

theorem handleFullExport_create_error (env : OrchEnv) (d : ExportData) (st : Store)
    (m : List Char) (hap : appendTargetOf d = none) (hcr : env.createResult = .error m) :
    (handleFullExport env d st).result = .error m ∧
    (handleFullExport env d st).store.exportHistory = st.exportHistory ∧
    (handleFullExport env d st).store.exportProgress = some ⟨statusError, 0, 0, m⟩ := by
  obtain ⟨-, -, hs3⟩ := runTurnLoop_spec env.summarize d.turns.length (startIndexOf d)
    (sliceOf d).length (sliceOf d) 0
    (setProgress st statusStarting 0 (sliceOf d).length startingMsg)
  simp only [handleFullExport, hap, Option.isSome_none, Bool.false_and,
    Bool.false_eq_true, if_false, hcr, mkErrorResult, setProgress]
  simp only [setProgress] at hs3
  exact ⟨trivial, hs3, trivial⟩

theorem handleFullExport_append_error (env : OrchEnv) (d : ExportData) (st : Store)
    (pbid m : List Char) (hap : appendTargetOf d = some pbid)
    (hne : (sliceOf d).isEmpty = false) (har : env.appendResult = .error m) :
    (handleFullExport env d st).result = .error m ∧
    (handleFullExport env d st).store.exportHistory = st.exportHistory ∧
    (handleFullExport env d st).store.exportProgress = some ⟨statusError, 0, 0, m⟩ := by
  obtain ⟨-, -, hs3⟩ := runTurnLoop_spec env.summarize d.turns.length (startIndexOf d)
    (sliceOf d).length (sliceOf d) 0
    (setProgress st statusStarting 0 (sliceOf d).length startingMsg)
  simp only [handleFullExport, hap, hne, Option.isSome_some, Bool.true_and,
    Bool.false_eq_true, if_false, har, mkErrorResult, setProgress]
  simp only [setProgress] at hs3
  exact ⟨trivial, hs3, trivial⟩

theorem handleFullExport_create_ok (env : OrchEnv) (d : ExportData) (st : Store)
    (newId : List Char) (hap : appendTargetOf d = none)
    (hcr : env.createResult = .ok newId) :
    (handleFullExport env d st).result = .ok () := by
  simp only [handleFullExport, hap, Option.isSome_none, Bool.false_and,
    Bool.false_eq_true, if_false, hcr, mkSuccessResult]

theorem handleFullExport_append_ok (env : OrchEnv) (d : ExportData) (st : Store)
    (pbid : List Char) (u : Unit) (hap : appendTargetOf d = some pbid)
    (hne : (sliceOf d).isEmpty = false) (har : env.appendResult = .ok u) :
    (handleFullExport env d st).result = .ok () := by
  simp only [handleFullExport, hap, hne, Option.isSome_some, Bool.true_and,
    Bool.false_eq_true, if_false, har, mkSuccessResult]

/-- Claim C3: whenever `handleFullExport` fails — the empty update slice,
a failed skeleton creation or a failed append — the stored export history
entry for the conversation is unchanged and the progress record is left
with status error carrying the failure message; the history record is only
ever written on the all-success path. -/
theorem claim3_ledger (env : OrchEnv) (d : ExportData) (st : Store) (msg : List Char)
    (h : (handleFullExport env d st).result = .error msg) :
    getHistoryEntry (handleFullExport env d st).store.exportHistory d.conversationUrl
      = getHistoryEntry st.exportHistory d.conversationUrl ∧
    (handleFullExport env d st).store.exportProgress
      = some ⟨statusError, 0, 0, msg⟩ := by
  cases hap : appendTargetOf d with
  | none =>
    cases hcr : env.createResult with
    | error m =>
      obtain ⟨hr, hh, hp⟩ := handleFullExport_create_error env d st m hap hcr
      rw [hr] at h
      have hm : m = msg := by simpa using h
      subst hm
      exact ⟨by rw [hh], hp⟩
    | ok newId =>
      rw [handleFullExport_create_ok env d st newId hap hcr] at h
      exact absurd h (by simp)
  | some pbid =>
    by_cases he : (sliceOf d).isEmpty = true
    · rw [handleFullExport_empty env d st pbid hap he] at h ⊢
      simp only [mkErrorResult, setProgress] at h ⊢
      have hm : noNewTurnsMsg = msg := by simpa using h
      subst msg
      exact ⟨trivial, rfl⟩
    · have hne : (sliceOf d).isEmpty = false := by
        cases hb : (sliceOf d).isEmpty
        · rfl
        · exact absurd hb he
      cases har : env.appendResult with
      | error m =>
        obtain ⟨hr, hh, hp⟩ := handleFullExport_append_error env d st pbid m hap hne har
        rw [hr] at h
        have hm : m = msg := by simpa using h
        subst hm
        exact ⟨by rw [hh], hp⟩
      | ok u =>
        rw [handleFullExport_append_ok env d st pbid u hap hne har] at h
        exact absurd h (by simp)

theorem claim3_witness :
    (handleFullExport envCreateFailW dataFullW emptyStore).result
      = Except.error ("Notion API Error: boom".data) ∧
    (handleFullExport envCreateFailW dataFullW emptyStore).store.exportProgress
      = some ⟨statusError, 0, 0, ("Notion API Error: boom".data)⟩ :=
  ⟨rfl, (claim3_ledger envCreateFailW dataFullW emptyStore _ rfl).2⟩

/-! ## Claim C4 -/

/-- Claim C4: when the summarizer fails for the turn at position i of the
processed slice, the pipeline still produces one TurnSummary per turn of
the slice, the entry at position i is the sentinel summary — its oneLine
is the text Turn N (summary failed) and it keeps the original user and
assistant texts — the summary list written to the destination is exactly
that complete list, and the run still succeeds. -/
theorem claim4_sentinel (env : OrchEnv) (d : ExportData) (st : Store) (i : Nat)
    (turn : Turn) (e bid : List Char)
    (ht : (sliceOf d)[i]? = some turn)
    (hfail : env.summarize turn = .error e)
    (hc : env.createResult = .ok bid)
    (ha : env.appendResult = .ok ()) :
    (processTurns env.summarize (sliceOf d)).length = (sliceOf d).length ∧
    (processTurns env.summarize (sliceOf d))[i]? = some (sentinelSummary turn) ∧
    writeSummaries (handleFullExport env d st).events
      = [processTurns env.summarize (sliceOf d)] ∧
    (handleFullExport env d st).result = .ok () := by
  have hne : (sliceOf d).isEmpty = false := by
    cases hsl : sliceOf d with
    | nil => rw [hsl] at ht; simp at ht
    | cons a l => rfl
  refine ⟨by simp [processTurns], ?_, ?_, handleFullExport_result_ok env d st bid hc ha hne⟩
  · rw [processTurns, List.getElem?_map, ht, Option.map_some']
    rw [hfail]
  · cases hap : appendTargetOf d with
    | some pbid =>
      obtain ⟨nt, nm, hev⟩ := handleFullExport_events_append env d st pbid hap hne
      rw [hev, writeSummaries_append, writeSummaries_map, List.nil_append]
      rfl
    | none =>
      obtain ⟨nt, nm, hev⟩ := handleFullExport_events_create env d st hap
      rw [hev, writeSummaries_append, writeSummaries_map, List.nil_append]
      rfl

theorem claim4_witness :
    (sliceOf dataFullW)[0]? = some turnW1 ∧
    envFailSummW.summarize turnW1 = Except.error ("HTTP 500".data) ∧
    (processTurns envFailSummW.summarize (sliceOf dataFullW))[0]?
      = some (sentinelSummary turnW1) ∧
    (handleFullExport envFailSummW dataFullW emptyStore).result = Except.ok () :=
  ⟨rfl, rfl,
    (claim4_sentinel envFailSummW dataFullW emptyStore 0 turnW1 ("HTTP 500".data)
      ("block-1".data) rfl rfl rfl rfl).2.1,
    (claim4_sentinel envFailSummW dataFullW emptyStore 0 turnW1 ("HTTP 500".data)
      ("block-1".data) rfl rfl rfl rfl).2.2.2⟩

/-! ## Claim C7 -/

/-- Claim C7: running update mode when the transcript has no turns beyond
the stored turnCount fails with the No new turns to export error rather
than succeeding silently: no summarization call and no destination write
happens, and the error is reported in the progress record. -/
theorem claim7_empty_update (env : OrchEnv) (d : ExportData) (st : Store)
    (r0 : ExistingExportData)
    (hmode : d.exportMode = updateModeStr)
    (hex : d.existingExportData = some r0)
    (hcount : d.turns.length ≤ r0.turnCount) :
    (handleFullExport env d st).result = .error noNewTurnsMsg ∧
    summarizeCalls (handleFullExport env d st).events = [] ∧
    writeSummaries (handleFullExport env d st).events = [] ∧
    (handleFullExport env d st).store.exportProgress
      = some ⟨statusError, 0, 0, noNewTurnsMsg⟩ := by
  have hslice : sliceOf d = d.turns.drop r0.turnCount := by
    simp only [sliceOf, hex, hmode, if_true]
  have hap : appendTargetOf d = some r0.parentBlockId := by
    simp only [appendTargetOf, hex, hmode, if_true]
  have he : (sliceOf d).isEmpty = true := by
    rw [hslice, List.drop_eq_nil_iff.mpr hcount]
    rfl
  rw [handleFullExport_empty env d st r0.parentBlockId hap he]
  exact ⟨rfl, rfl, rfl, rfl⟩

theorem claim7_witness :
    dataUpdateEmptyW.exportMode = updateModeStr ∧
    dataUpdateEmptyW.turns.length ≤ 2 ∧
    (handleFullExport envOkW dataUpdateEmptyW emptyStore).result
      = Except.error noNewTurnsMsg :=
  ⟨rfl, by decide,
    (claim7_empty_update envOkW dataUpdateEmptyW emptyStore ⟨2, "parent-1".data⟩ rfl rfl
      (by decide)).1⟩

end ClaudeExport
